import Mathlib

/-!
Verification development for the model-matching engine of `which-llm`
(`src/merge/matcher.rs`).

Strings are modelled as lists of characters (`Str`).  Rust `HashMap`s are
modelled as association lists; the list order stands for one concrete
iteration order of the backing map.  Each of the small anchored regular
expressions of the matcher is translated into an explicit scanning function
with `replace_all` resume-after-the-match semantics.  Rust snake_case names
are kept, written in camelCase.
-/

/-- Strings as lists of characters. -/
abbrev Str := List Char

/-- Character-list form of a string literal. -/
def strL (s : String) : Str := s.toList

/-- Rust `str::to_lowercase`, restricted to the ASCII range that the
repository's slugs use. -/
def toLowerStr (s : Str) : Str := s.map Char.toLower

/-- Boolean test that the first list is a leading segment of the second
(Rust `str::starts_with`). -/
def isPre : Str → Str → Bool
  | [], _ => true
  | _ :: _, [] => false
  | a :: as, b :: bs => if a = b then isPre as bs else false

/-- Boolean test that `t` is a trailing segment of `s` (Rust `str::ends_with`). -/
def endsW (s t : Str) : Bool := isPre t.reverse s.reverse

/-- Remove the last `n` characters (the kept part of Rust `str::strip_suffix`). -/
def dropEndN (s : Str) (n : Nat) : Str := s.take (s.length - n)

/-- Rust `str::strip_suffix`: `some` of the leading part when `sfx` is a
trailing segment, `none` otherwise. -/
def stripSuffixO (s sfx : Str) : Option Str :=
  if endsW s sfx then some (dropEndN s sfx.length) else none

/-- Provider name mapping from AA to models.dev (`PROVIDER_MAPPING` in the
source, pre-computed static table). -/
def providerMapping : List (Str × Str) :=
  [(strL ("meta"), strL ("llama")),
   (strL ("meta-llama"), strL ("llama")),
   (strL ("x-ai"), strL ("xai")),
   (strL ("x.ai"), strL ("xai"))]

/-- First value bound to `key`, modelling `HashMap::get`. -/
def mapGet {α : Type} : List (Str × α) → Str → Option α
  | [], _ => none
  | (k, v) :: rest, key => if k = key then some v else mapGet rest key

/-- Source `normalize_provider`: lowercase, then rewrite through the static
alias table, identifiers not in the table passing through unchanged. -/
def normalizeProvider (slug : Str) : Str :=
  let lower := toLowerStr slug
  (mapGet providerMapping lower).getD lower

/-- Scanner for the separator regex `(\d)\.(\d)`, replacing every match by
`$1-$2` and searching again after each replaced match.  The `fuel` argument
makes the recursion structural; every step consumes at least one character,
so any `fuel ≥ length` computes the scan. -/
def nvsFuel : Nat → Str → Str
  | 0, s => s
  | _ + 1, [] => []
  | fuel + 1, a :: rest =>
    match rest with
    | dot :: b :: rest2 =>
      if dot = '.' ∧ a.isDigit ∧ b.isDigit then a :: '-' :: b :: nvsFuel fuel rest2
      else a :: nvsFuel fuel rest
    | _ => a :: nvsFuel fuel rest

/-- Source `normalize_version_separators`: the regex `(\d)\.(\d)`, replaced
everywhere by `$1-$2`, searching again after every replaced match. -/
def normalizeVersionSeparators (s : Str) : Str := nvsFuel s.length s

/-- Decides whether the separator regex `(\d)\.(\d)` matches anywhere. -/
def hasSepPattern : Str → Bool
  | [] => false
  | a :: rest =>
    (match rest with
     | dot :: b :: _ => decide (dot = '.' ∧ a.isDigit ∧ b.isDigit)
     | _ => false) || hasSepPattern rest

/-- Position of the first `'/'`, as the remainder after it, `none` when the
character is absent. -/
def afterSlash : Str → Option Str
  | [] => none
  | c :: rest => if c = '/' then some rest else afterSlash rest

/-- Source `strip_provider_prefix`: drop everything up to and including the
first `'/'`; unchanged when there is none. -/
def stripProviderPfx (s : Str) : Str := (afterSlash s).getD s

/-- Source `strip_reasoning_suffix`: remove a trailing `-non-reasoning`
(checked first) or `-reasoning`; `none` when neither applies. -/
def stripReasoningSuffix (s : Str) : Option Str :=
  match stripSuffixO s (strL ("-non-reasoning")) with
  | some base => some base
  | none => stripSuffixO s (strL ("-reasoning"))

/-- Scanner for the mid-string compressed-version regex `-(\d)(\d)-`,
replacing every match by `-$1-$2-` and searching again after each replaced
match, with the same structural-fuel scheme as `nvsFuel`. -/
def expandMidFuel : Nat → Str → Str
  | 0, s => s
  | _ + 1, [] => []
  | fuel + 1, c :: rest =>
    match rest with
    | a :: b :: d :: rest2 =>
      if c = '-' ∧ d = '-' ∧ a.isDigit ∧ b.isDigit then
        '-' :: a :: '-' :: b :: '-' :: expandMidFuel fuel rest2
      else c :: expandMidFuel fuel rest
    | _ => c :: expandMidFuel fuel rest

/-- The mid-string compressed-version pass at adequate fuel. -/
def expandMid (s : Str) : Str := expandMidFuel s.length s

/-- Decides whether the regex `-(\d)(\d)-` matches anywhere. -/
def hasMidPattern : Str → Bool
  | [] => false
  | c :: rest =>
    (match rest with
     | a :: b :: d :: _ => decide (c = '-' ∧ d = '-' ∧ a.isDigit ∧ b.isDigit)
     | _ => false) || hasMidPattern rest

/-- Apply the end-of-string compressed-version regex `-(\d)(\d)$`, replacing
its (necessarily unique) match by `-$1-$2`. -/
def expandEnd (s : Str) : Str :=
  match s.reverse with
  | b :: a :: d :: rest =>
    if d = '-' ∧ a.isDigit ∧ b.isDigit then rest.reverse ++ ['-', a, '-', b] else s
  | _ => s

/-- Decides whether the regex `-(\d)(\d)$` matches. -/
def hasEndPattern (s : Str) : Bool :=
  match s.reverse with
  | b :: a :: d :: _ => decide (d = '-' ∧ a.isDigit ∧ b.isDigit)
  | _ => false

/-- Source `expand_compressed_version`: the mid-string pass followed by the
end-of-string pass. -/
def expandCompressedVersion (s : Str) : Str := expandEnd (expandMid s)

/-- Source `try_add_it_suffix`: for a slug starting with `gemma-` and not
already ending with `-it`, append `-it`; `none` otherwise. -/
def tryAddItSuffix (s : Str) : Option Str :=
  if isPre (strL ("gemma-")) s && !(endsW s (strL ("-it"))) then
    some (s ++ strL ("-it"))
  else none

/-- Effort-level suffixes tried, in source order. -/
def effortSuffixes : List Str :=
  [strL ("-low"), strL ("-medium"), strL ("-high"), strL ("-minimal")]

/-- First successful suffix strip from a candidate list, in order. -/
def firstStrip (s : Str) : List Str → Option Str
  | [] => none
  | sfx :: rest =>
    match stripSuffixO s sfx with
    | some base => some base
    | none => firstStrip s rest

/-- Source `strip_effort_suffix_for_provider`: only for creators whose
lowercase form is `google`, `openai` or `anthropic`, remove a trailing
`-low`, `-medium`, `-high` or `-minimal` (tried in that order). -/
def stripEffortSuffixForProvider (slug : Str) (creator : Option Str) : Option Str :=
  match creator with
  | none => none
  | some c =>
    let cl := toLowerStr c
    if cl = strL ("google") ∨ cl = strL ("openai") ∨ cl = strL ("anthropic") then
      firstStrip slug effortSuffixes
    else none

/-- Apply the end-anchored date regex `-\d{8}$` (pattern 1 of
`strip_version_suffix`), removing its match. -/
def stripDate (s : Str) : Str :=
  match s.reverse with
  | d1 :: d2 :: d3 :: d4 :: d5 :: d6 :: d7 :: d8 :: h9 :: rest =>
    if h9 = '-' ∧ d1.isDigit ∧ d2.isDigit ∧ d3.isDigit ∧ d4.isDigit ∧
       d5.isDigit ∧ d6.isDigit ∧ d7.isDigit ∧ d8.isDigit then
      rest.reverse
    else s
  | _ => s

/-- Decides whether the regex `-\d{8}$` matches. -/
def hasDateSuffix (s : Str) : Bool :=
  match s.reverse with
  | d1 :: d2 :: d3 :: d4 :: d5 :: d6 :: d7 :: d8 :: h9 :: _ =>
    decide (h9 = '-' ∧ d1.isDigit ∧ d2.isDigit ∧ d3.isDigit ∧ d4.isDigit ∧
      d5.isDigit ∧ d6.isDigit ∧ d7.isDigit ∧ d8.isDigit)
  | _ => false

/-- Apply the end-anchored dashed-date regex `-\d{4}-\d{2}-\d{2}$` (pattern 2
of `strip_version_suffix`), removing its match. -/
def stripDashedDate (s : Str) : Str :=
  match s.reverse with
  | e2 :: e1 :: h3 :: f2 :: f1 :: h6 :: g4 :: g3 :: g2 :: g1 :: h11 :: rest =>
    if h3 = '-' ∧ h6 = '-' ∧ h11 = '-' ∧ e1.isDigit ∧ e2.isDigit ∧ f1.isDigit ∧
       f2.isDigit ∧ g1.isDigit ∧ g2.isDigit ∧ g3.isDigit ∧ g4.isDigit then
      rest.reverse
    else s
  | _ => s

/-- Decides whether the regex `-\d{4}-\d{2}-\d{2}$` matches. -/
def hasDashedDateSuffix (s : Str) : Bool :=
  match s.reverse with
  | e2 :: e1 :: h3 :: f2 :: f1 :: h6 :: g4 :: g3 :: g2 :: g1 :: h11 :: _ =>
    decide (h3 = '-' ∧ h6 = '-' ∧ h11 = '-' ∧ e1.isDigit ∧ e2.isDigit ∧ f1.isDigit ∧
      f2.isDigit ∧ g1.isDigit ∧ g2.isDigit ∧ g3.isDigit ∧ g4.isDigit)
  | _ => false

/-- Body of the version regex after `-v`: digits, then any number of
dot-digit groups (`\d+(\.\d+)*`).  The Boolean state records whether the
current group already holds a digit. -/
def vBodyAux : Bool → Str → Bool
  | seen, [] => seen
  | seen, c :: rest =>
    if c = '.' then seen && vBodyAux false rest
    else if c.isDigit then vBodyAux true rest
    else false

/-- Full-match test for `\d+(\.\d+)*`. -/
def vBody (s : Str) : Bool := vBodyAux false s

/-- Apply the regex `-v\d+(\.\d+)*$` (pattern 3 of `strip_version_suffix`),
removing the leftmost-starting match that reaches the end of the string, with
the structural-fuel scheme of `nvsFuel`. -/
def stripVSufFuel : Nat → Str → Str
  | 0, s => s
  | _ + 1, [] => []
  | fuel + 1, c :: rest =>
    match rest with
    | v :: rest2 =>
      if c = '-' ∧ v = 'v' ∧ vBody rest2 then [] else c :: stripVSufFuel fuel rest
    | _ => c :: stripVSufFuel fuel rest

/-- The `-v` version-suffix pass at adequate fuel. -/
def stripVSuf (s : Str) : Str := stripVSufFuel s.length s

/-- Decides whether the regex `-v\d+(\.\d+)*$` matches. -/
def hasVSuf : Str → Bool
  | [] => false
  | c :: rest =>
    (match rest with
     | v :: rest2 => decide (c = '-' ∧ v = 'v' ∧ vBody rest2)
     | _ => false) || hasVSuf rest

/-- Source `strip_version_suffix`: the three end-anchored patterns applied in
source order (date, dashed date, `-vN(.N)*`). -/
def stripVersionSuffix (s : Str) : Str := stripVSuf (stripDashedDate (stripDate s))

/-- Capability record of a Provider-B model (`ModelsDevModel`, constructed in
the matcher's tests).  Payload fields the matcher never reads (knowledge,
release/update dates, open-weights flag, status, token limits, the
floating-point cost table and the modality lists) are omitted: `find_match`
treats the model value opaquely and only passes its reference through. -/
structure ModelsDevModel where
  id : Str
  name : Str
  family : Option Str
  attachment : Option Bool
  reasoning : Option Bool
  toolCall : Option Bool
  structuredOutput : Option Bool
  temperature : Option Bool
  deriving DecidableEq

/-- Provider-B namespace record (`ModelsDevProvider`).  The `models` map is
an association list standing for the backing hash map in one concrete
iteration order; `env`, `npm`, `doc` and `api` are never read by the matcher
and are omitted. -/
structure ModelsDevProvider where
  id : Str
  name : Str
  models : List (Str × ModelsDevModel)
  deriving DecidableEq

/-- The nine mutually exclusive provenance tags of `MatchType`. -/
inductive MatchType where
  | Exact
  | Fuzzy
  | NormalizedProvider
  | NormalizedVersionSeparator
  | StrippedProviderPfx
  | ReasoningVariant
  | ExpandedVersion
  | GemmaItSuffix
  | EffortLevel
  deriving DecidableEq

/-- Result of a match attempt (`MatchResult`). -/
structure MatchResult where
  providerId : Str
  model : ModelsDevModel
  matchType : MatchType
  deriving DecidableEq

/-- Source helper inside `NormalizedSlugs::new`: keep a transformed variant
only when it differs from the input. -/
def optIfChanged (f : Str → Str) (s : Str) : Option Str :=
  let v := f s
  if v ≠ s then some v else none

/-- Pre-computed normalized variants of an AA slug (`NormalizedSlugs`). -/
structure NormalizedSlugs where
  strippedVersion : Option Str
  normalizedSeparators : Option Str
  strippedReasoning : Option Str
  reasoningNormalized : Option Str
  expandedVersion : Option Str
  expandedNormalized : Option Str
  withItSuffix : Option Str
  strippedEffort : Option Str
  effortNormalized : Option Str

/-- Source `NormalizedSlugs::new`, applied to the already-lowercased AA slug
and the original optional creator slug. -/
def NormalizedSlugs.ofSlug (aaSlug : Str) (creator : Option Str) : NormalizedSlugs :=
  let strippedReasoning := stripReasoningSuffix aaSlug
  let expandedVersion := optIfChanged expandCompressedVersion aaSlug
  let strippedEffort := stripEffortSuffixForProvider aaSlug creator
  { strippedVersion := optIfChanged stripVersionSuffix aaSlug
    normalizedSeparators := optIfChanged normalizeVersionSeparators aaSlug
    strippedReasoning := strippedReasoning
    reasoningNormalized := strippedReasoning.bind (optIfChanged normalizeVersionSeparators)
    expandedVersion := expandedVersion
    expandedNormalized := expandedVersion.bind (optIfChanged normalizeVersionSeparators)
    withItSuffix := tryAddItSuffix aaSlug
    strippedEffort := strippedEffort
    effortNormalized := strippedEffort.bind (optIfChanged normalizeVersionSeparators) }

/-- Pre-computed variants of a models.dev model identifier
(`ModelIdVariants`). -/
structure ModelIdVariants where
  originalLower : Str
  strippedVersion : Str
  normalizedSeparators : Str
  strippedPfx : Str

/-- Source `ModelIdVariants::new`. -/
def ModelIdVariants.ofId (modelId : Str) : ModelIdVariants :=
  { originalLower := toLowerStr modelId
    strippedVersion := stripVersionSuffix modelId
    normalizedSeparators := normalizeVersionSeparators modelId
    strippedPfx := stripProviderPfx modelId }

/-- Inner loop of `find_model_by`: first model of one provider whose
identifier variants satisfy the predicate, in map order. -/
def findInModels (pid : Str) (pred : Str → ModelIdVariants → Bool) :
    List (Str × ModelsDevModel) → Option (Str × ModelsDevModel)
  | [] => none
  | (mid, m) :: rest =>
    if pred pid (ModelIdVariants.ofId mid) then some (pid, m)
    else findInModels pid pred rest

/-- Source `find_model_by`: first model across all providers (in map order)
satisfying the predicate. -/
def findModelBy (pred : Str → ModelIdVariants → Bool) :
    List (Str × ModelsDevProvider) → Option (Str × ModelsDevModel)
  | [] => none
  | (_, p) :: rest =>
    match findInModels p.id pred p.models with
    | some r => some r
    | none => findModelBy pred rest

/-- First-success choice between two optional results (the control flow of
the cascade's sequential `return`s). -/
def orO {α : Type} : Option α → Option α → Option α
  | some a, _ => some a
  | none, b => b

/-- Wrap a `find_model_by` call into a `MatchResult` with a fixed tag (the
body shared by strategies 2 through 9). -/
def tryStrat (ps : List (Str × ModelsDevProvider)) (pred : Str → ModelIdVariants → Bool)
    (tag : MatchType) : Option MatchResult :=
  (findModelBy pred ps).map fun pm => ⟨pm.1, pm.2, tag⟩

/-- Strategy 1's inner scan: first model of the resolved provider whose
lowercased map key equals the lowercased AA slug. -/
def scanExact (aaSlug : Str) : List (Str × ModelsDevModel) → Option ModelsDevModel
  | [] => none
  | (mid, m) :: rest =>
    if toLowerStr mid = aaSlug then some m else scanExact aaSlug rest

/-- Strategy 1 of `find_match`: exact match within the alias-resolved
namespace, tagged `NormalizedProvider` exactly when the alias table changed
the namespace spelling. -/
def strategy1 (ps : List (Str × ModelsDevProvider)) (aaProvider aaSlug : Str)
    (pwn : Bool) : Option MatchResult :=
  (mapGet ps aaProvider).bind fun provider =>
    (scanExact aaSlug provider.models).map fun m =>
      ⟨provider.id, m, if pwn then MatchType.NormalizedProvider else MatchType.Exact⟩

/-- Body of `find_match` after its local bindings: the nine strategies in
source order, first hit wins. -/
def findMatchCore (ps : List (Str × ModelsDevProvider)) (aaProvider aaSlug : Str)
    (pwn : Bool) (slugs : NormalizedSlugs) : Option MatchResult :=
  orO (strategy1 ps aaProvider aaSlug pwn)
  (orO (tryStrat ps (fun _ v => decide (v.originalLower = aaSlug)) MatchType.Exact)
  (orO (slugs.strippedVersion.bind fun base =>
        tryStrat ps (fun _ v => decide (toLowerStr v.strippedVersion = base)) MatchType.Fuzzy)
  (orO (tryStrat ps (fun _ v => decide (toLowerStr v.strippedVersion = aaSlug)) MatchType.Fuzzy)
  (orO (slugs.normalizedSeparators.bind fun normalized =>
        tryStrat ps (fun _ v => decide (v.originalLower = normalized))
          MatchType.NormalizedVersionSeparator)
  (orO (tryStrat ps (fun _ v => decide (toLowerStr v.normalizedSeparators = aaSlug))
          MatchType.NormalizedVersionSeparator)
  (orO (tryStrat ps (fun _ v => decide (toLowerStr v.strippedPfx = aaSlug))
          MatchType.StrippedProviderPfx)
  (orO (slugs.strippedReasoning.bind fun base =>
        orO (tryStrat ps (fun _ v => decide (v.originalLower = base)) MatchType.ReasoningVariant)
        (orO (slugs.reasoningNormalized.bind fun normalized =>
              tryStrat ps (fun _ v => decide (v.originalLower = normalized))
                MatchType.ReasoningVariant)
        (orO (tryStrat ps (fun _ v => decide (toLowerStr v.normalizedSeparators = base))
                MatchType.ReasoningVariant)
             (tryStrat ps (fun _ v => decide (toLowerStr v.strippedPfx = base))
                MatchType.ReasoningVariant))))
  (orO (slugs.expandedVersion.bind fun expanded =>
        orO (tryStrat ps (fun _ v => decide (v.originalLower = expanded)) MatchType.ExpandedVersion)
        (orO (slugs.expandedNormalized.bind fun normalized =>
              tryStrat ps (fun _ v => decide (v.originalLower = normalized))
                MatchType.ExpandedVersion)
             (tryStrat ps (fun _ v => decide (toLowerStr v.normalizedSeparators = expanded))
                MatchType.ExpandedVersion)))
  (orO (slugs.withItSuffix.bind fun itSlug =>
        tryStrat ps (fun _ v => decide (v.originalLower = itSlug)) MatchType.GemmaItSuffix)
       (slugs.strippedEffort.bind fun base =>
        orO (tryStrat ps (fun _ v => decide (v.originalLower = base)) MatchType.EffortLevel)
        (orO (slugs.effortNormalized.bind fun normalized =>
              tryStrat ps (fun _ v => decide (v.originalLower = normalized))
                MatchType.EffortLevel)
             (tryStrat ps (fun _ v => decide (toLowerStr v.normalizedSeparators = base))
                MatchType.EffortLevel))))))))))))

/-- Alias-resolved namespace of `find_match`
(`aa_creator_slug.map(normalize_provider).unwrap_or_default()`). -/
def aaProviderOf (creator : Option Str) : Str :=
  (creator.map normalizeProvider).getD []

/-- The `provider_was_normalized` flag of `find_match`. -/
def pwnOf (creator : Option Str) : Bool :=
  (creator.map fun s => decide (toLowerStr s ≠ normalizeProvider s)).getD false

/-- Source `find_match`: lowercase the AA slug, resolve the namespace,
pre-compute the slug variants, then run the strategy cascade. -/
def findMatch (creator : Option Str) (aaModelSlug : Str)
    (ps : List (Str × ModelsDevProvider)) : Option MatchResult :=
  findMatchCore ps (aaProviderOf creator) (toLowerStr aaModelSlug) (pwnOf creator)
    (NormalizedSlugs.ofSlug (toLowerStr aaModelSlug) creator)

/-- Match provenance: the result's model is a value of the `models` map of
some provider in the snapshot, and the result's provider id is the `id`
field of that same provider. -/
def InSnapshot (ps : List (Str × ModelsDevProvider)) (r : MatchResult) : Prop :=
  ∃ k p, (k, p) ∈ ps ∧ r.providerId = p.id ∧
    ∃ mid m, (mid, m) ∈ p.models ∧ r.model = m

/-- Provider-A record (benchmark side), with the identity fields the merge
consults; the floating-point benchmark/pricing payload is never read by the
matcher and is omitted. -/
structure ProviderARecord where
  id : Nat
  name : Str
  slug : Str
  creatorSlug : Option Str
  deriving DecidableEq

/-- Merged output row: Provider-A identity plus the optional resolved
Provider-B capability record and the `matched` flag. -/
structure MergedRow where
  aaRecord : ProviderARecord
  capability : Option ModelsDevModel
  matched : Bool
  deriving DecidableEq

/-- Modelled from the spec: the Merge Combiner (`merge_models`, whose
defining source file is absent from `src/`; only its callers appear there).
Per §4.3, for each Provider-A record it runs the cascade once, projects the
resolved capability record and sets `matched` to whether a match was found,
never mutating Provider-A fields. -/
def mergeModels (records : List ProviderARecord)
    (ps : List (Str × ModelsDevProvider)) : List MergedRow :=
  records.map fun rec =>
    match findMatch rec.creatorSlug rec.slug ps with
    | some r => { aaRecord := rec, capability := some r.model, matched := true }
    | none => { aaRecord := rec, capability := none, matched := false }

/-- Option-valued transforms applied as rewrites: `none` means the transform
is inapplicable and the input passes through unchanged. -/
def applyOpt (f : Str → Option Str) (s : Str) : Str := (f s).getD s

/-- Two provider records that agree except possibly for the iteration order
of their `models` map. -/
def providerEquiv (p q : ModelsDevProvider) : Prop :=
  p.id = q.id ∧ p.name = q.name ∧ ∀ mk, mapGet p.models mk = mapGet q.models mk

/-- Two snapshots that are equal as maps: the same provider keys, bound to
providers equal as maps, independently of iteration order. -/
def snapshotEquiv (ps qs : List (Str × ModelsDevProvider)) : Prop :=
  ∀ k, (mapGet ps k = none ∧ mapGet qs k = none) ∨
    (∃ p q, mapGet ps k = some p ∧ mapGet qs k = some q ∧ providerEquiv p q)

/-- Test fixture: a capability record with the given identifier (the
matcher's tests build models the same way). -/
def mkModel (i : Str) : ModelsDevModel :=
  ⟨i, i, none, some true, some false, some true, some true, some true⟩

/-- Test fixture: a provider with the given identifier and models map. -/
def mkProv (i : Str) (ms : List (Str × ModelsDevModel)) : ModelsDevProvider :=
  ⟨i, i, ms⟩

/-- Snapshot holding `openai/gpt-4o` together with a date-versioned variant
`openai/gpt-4o-20240806` (exact and fuzzy candidates for slug `gpt-4o`). -/
def psExactAndFuzzy : List (Str × ModelsDevProvider) :=
  [(strL ("openai"), mkProv (strL ("openai"))
    [(strL ("gpt-4o"), mkModel (strL ("gpt-4o"))),
     (strL ("gpt-4o-20240806"), mkModel (strL ("gpt-4o-20240806")))])]

/-- Snapshot holding only `openai/gpt-5`. -/
def psGpt5 : List (Str × ModelsDevProvider) :=
  [(strL ("openai"), mkProv (strL ("openai")) [(strL ("gpt-5"), mkModel (strL ("gpt-5")))])]

/-- Snapshot holding only `openai/gpt-4o`. -/
def psGpt4o : List (Str × ModelsDevProvider) :=
  [(strL ("openai"), mkProv (strL ("openai")) [(strL ("gpt-4o"), mkModel (strL ("gpt-4o")))])]

/-- Snapshot holding only `google/gemini-2.5-flash` (dotted identifier). -/
def psGemini : List (Str × ModelsDevProvider) :=
  [(strL ("google"), mkProv (strL ("google"))
    [(strL ("gemini-2.5-flash"), mkModel (strL ("gemini-2.5-flash")))])]

/-- Snapshot holding only `llama/llama-3` (the namespace the alias table
resolves `meta` to). -/
def psLlama : List (Str × ModelsDevProvider) :=
  [(strL ("llama"), mkProv (strL ("llama")) [(strL ("llama-3"), mkModel (strL ("llama-3")))])]

/-- First of two distinct fuzzy candidates for slug `m`. -/
def modelA : ModelsDevModel := mkModel (strL ("m-20240101"))

/-- Second of two distinct fuzzy candidates for slug `m`. -/
def modelB : ModelsDevModel := mkModel (strL ("m-20240202"))

/-- Provider `p` listing the two fuzzy candidates in one order. -/
def provOrder1 : ModelsDevProvider :=
  mkProv (strL ("p")) [(strL ("m-20240101"), modelA), (strL ("m-20240202"), modelB)]

/-- Provider `p` listing the same two bindings in the opposite order. -/
def provOrder2 : ModelsDevProvider :=
  mkProv (strL ("p")) [(strL ("m-20240202"), modelB), (strL ("m-20240101"), modelA)]

/-- Snapshot enumerating provider `p`'s models in the first order. -/
def psOrder1 : List (Str × ModelsDevProvider) := [(strL ("p"), provOrder1)]

/-- Snapshot enumerating provider `p`'s models in the second order. -/
def psOrder2 : List (Str × ModelsDevProvider) := [(strL ("p"), provOrder2)]

theorem orO_eq_some {a : Type} {x y : Option a} {r : a} (h : orO x y = some r) :
    x = some r ∨ (x = none ∧ y = some r) := by
  cases x with
  | some v => left; simpa [orO] using h
  | none => right; exact ⟨rfl, by simpa [orO] using h⟩

theorem bind_eq_someO {a b : Type} {o : Option a} {f : a → Option b} {v : b}
    (h : o.bind f = some v) : ∃ x, o = some x ∧ f x = some v := by
  cases o with
  | none => simp at h
  | some x => exact ⟨x, rfl, h⟩

theorem bindNoneFun {a b : Type} (o : Option a) :
    (o.bind fun _ => (none : Option b)) = none := by
  cases o <;> rfl

theorem mapGet_mem {a : Type} {ps : List (Str × a)} {k : Str} {v : a}
    (h : mapGet ps k = some v) : (k, v) ∈ ps := by
  induction ps with
  | nil => simp [mapGet] at h
  | cons kv rest ih =>
    obtain ⟨k1, v1⟩ := kv
    rw [show mapGet ((k1, v1) :: rest) k = if k1 = k then some v1 else mapGet rest k from rfl] at h
    by_cases hk : k1 = k
    · rw [if_pos hk] at h
      injection h with h
      rw [hk, h]
      exact List.mem_cons_self _ _
    · rw [if_neg hk] at h
      exact List.mem_cons_of_mem _ (ih h)

theorem findInModels_mem {pid : Str} {pred : Str → ModelIdVariants → Bool}
    {l : List (Str × ModelsDevModel)} {pr : Str × ModelsDevModel}
    (h : findInModels pid pred l = some pr) :
    pr.1 = pid ∧ ∃ mid m, (mid, m) ∈ l ∧ pr.2 = m := by
  induction l with
  | nil => simp [findInModels] at h
  | cons mm rest ih =>
    rw [show findInModels pid pred (mm :: rest) =
        (if pred pid (ModelIdVariants.ofId mm.1) then some (pid, mm.2)
         else findInModels pid pred rest) from rfl] at h
    by_cases hp : pred pid (ModelIdVariants.ofId mm.1)
    · rw [if_pos hp] at h
      injection h with h
      subst h
      exact ⟨rfl, mm.1, mm.2, by rw [Prod.mk.eta]; exact List.mem_cons_self _ _, rfl⟩
    · rw [if_neg hp] at h
      obtain ⟨h1, mid, m, hm, h2⟩ := ih h
      exact ⟨h1, mid, m, List.mem_cons_of_mem _ hm, h2⟩

theorem findModelBy_mem {pred : Str → ModelIdVariants → Bool}
    {ps : List (Str × ModelsDevProvider)} {pr : Str × ModelsDevModel}
    (h : findModelBy pred ps = some pr) :
    ∃ k p, (k, p) ∈ ps ∧ pr.1 = p.id ∧ ∃ mid m, (mid, m) ∈ p.models ∧ pr.2 = m := by
  induction ps with
  | nil => simp [findModelBy] at h
  | cons kp rest ih =>
    rw [show findModelBy pred (kp :: rest) =
        (match findInModels kp.2.id pred kp.2.models with
         | some r => some r
         | none => findModelBy pred rest) from rfl] at h
    cases hfi : findInModels kp.2.id pred kp.2.models with
    | some r0 =>
      rw [hfi] at h
      injection h with h
      subst h
      obtain ⟨h1, mid, m, hm, h2⟩ := findInModels_mem hfi
      exact ⟨kp.1, kp.2, by rw [Prod.mk.eta]; exact List.mem_cons_self _ _, h1, mid, m, hm, h2⟩
    | none =>
      rw [hfi] at h
      obtain ⟨k, p, hmem, hrest⟩ := ih h
      exact ⟨k, p, List.mem_cons_of_mem _ hmem, hrest⟩

theorem findInModels_isSome {pid : Str} {pred : Str → ModelIdVariants → Bool}
    {l : List (Str × ModelsDevModel)}
    (h : ∃ mid m, (mid, m) ∈ l ∧ pred pid (ModelIdVariants.ofId mid) = true) :
    (findInModels pid pred l).isSome := by
  obtain ⟨mid, m, hmem, hp⟩ := h
  induction l with
  | nil => simp at hmem
  | cons mm rest ih =>
    rw [show findInModels pid pred (mm :: rest) =
        (if pred pid (ModelIdVariants.ofId mm.1) then some (pid, mm.2)
         else findInModels pid pred rest) from rfl]
    by_cases hp0 : pred pid (ModelIdVariants.ofId mm.1)
    · rw [if_pos hp0]; rfl
    · rw [if_neg hp0]
      rcases List.mem_cons.mp hmem with heq | hmem'
      · subst heq
        exact absurd hp hp0
      · exact ih hmem'

theorem findModelBy_isSome {pred : Str → ModelIdVariants → Bool}
    {ps : List (Str × ModelsDevProvider)}
    (h : ∃ k p, (k, p) ∈ ps ∧ ∃ mid m, (mid, m) ∈ p.models ∧
      pred p.id (ModelIdVariants.ofId mid) = true) :
    (findModelBy pred ps).isSome := by
  obtain ⟨k, p, hmem, hin⟩ := h
  induction ps with
  | nil => simp at hmem
  | cons kp rest ih =>
    rcases List.mem_cons.mp hmem with heq | hmem'
    · subst heq
      show (match findInModels p.id pred p.models with
            | some r => some r
            | none => findModelBy pred rest).isSome = true
      obtain ⟨r0, hfi⟩ := Option.isSome_iff_exists.mp (findInModels_isSome hin)
      rw [hfi]
      rfl
    · show (match findInModels kp.2.id pred kp.2.models with
            | some r => some r
            | none => findModelBy pred rest).isSome = true
      cases hfi : findInModels kp.2.id pred kp.2.models with
      | none => exact ih hmem'
      | some r0 => rfl

theorem map_eq_someO {a b : Type} {o : Option a} {f : a → b} {v : b}
    (h : o.map f = some v) : ∃ x, o = some x ∧ f x = v := by
  cases o with
  | none => simp at h
  | some x => exact ⟨x, rfl, by injection h⟩

theorem scanExact_mem {aaSlug : Str} {l : List (Str × ModelsDevModel)} {m : ModelsDevModel}
    (h : scanExact aaSlug l = some m) : ∃ mid, (mid, m) ∈ l ∧ toLowerStr mid = aaSlug := by
  induction l with
  | nil => simp [scanExact] at h
  | cons mm rest ih =>
    rw [show scanExact aaSlug (mm :: rest) =
        (if toLowerStr mm.1 = aaSlug then some mm.2 else scanExact aaSlug rest) from rfl] at h
    by_cases hl : toLowerStr mm.1 = aaSlug
    · rw [if_pos hl] at h
      injection h with h
      subst h
      exact ⟨mm.1, by rw [Prod.mk.eta]; exact List.mem_cons_self _ _, hl⟩
    · rw [if_neg hl] at h
      obtain ⟨mid, hm, he⟩ := ih h
      exact ⟨mid, List.mem_cons_of_mem _ hm, he⟩

theorem scanExact_isSome {aaSlug : Str} {l : List (Str × ModelsDevModel)}
    (h : ∃ mid m, (mid, m) ∈ l ∧ toLowerStr mid = aaSlug) :
    (scanExact aaSlug l).isSome := by
  obtain ⟨mid, m, hmem, he⟩ := h
  induction l with
  | nil => simp at hmem
  | cons mm rest ih =>
    rw [show scanExact aaSlug (mm :: rest) =
        (if toLowerStr mm.1 = aaSlug then some mm.2 else scanExact aaSlug rest) from rfl]
    by_cases hl : toLowerStr mm.1 = aaSlug
    · rw [if_pos hl]; rfl
    · rw [if_neg hl]
      rcases List.mem_cons.mp hmem with heq | hmem'
      · subst heq
        exact absurd he hl
      · exact ih hmem'

theorem tryStrat_cases {ps : List (Str × ModelsDevProvider)}
    {pred : Str → ModelIdVariants → Bool} {tag : MatchType} {r : MatchResult}
    (h : tryStrat ps pred tag = some r) : r.matchType = tag ∧ InSnapshot ps r := by
  unfold tryStrat at h
  obtain ⟨pm, hf, hr⟩ := map_eq_someO h
  subst hr
  refine ⟨rfl, ?_⟩
  obtain ⟨k, p, hmem, h1, mid, m, hm, h2⟩ := findModelBy_mem hf
  exact ⟨k, p, hmem, h1, mid, m, hm, h2⟩

theorem strategy1_cases {ps : List (Str × ModelsDevProvider)} {ap slug : Str}
    {pwn : Bool} {r : MatchResult} (h : strategy1 ps ap slug pwn = some r) :
    r.matchType = (if pwn then MatchType.NormalizedProvider else MatchType.Exact) ∧
    InSnapshot ps r := by
  unfold strategy1 at h
  obtain ⟨provider, hg, h⟩ := bind_eq_someO h
  obtain ⟨m, hs, hr⟩ := map_eq_someO h
  subst hr
  refine ⟨rfl, ?_⟩
  obtain ⟨mid, hmem, _⟩ := scanExact_mem hs
  exact ⟨ap, provider, mapGet_mem hg, rfl, mid, m, hmem, rfl⟩

theorem isPre_self_append (x y : Str) : isPre x (x ++ y) = true := by
  induction x with
  | nil => rfl
  | cons a as ih => simp [isPre, ih]

theorem endsW_append_self (b t : Str) : endsW (b ++ t) t = true := by
  unfold endsW
  rw [List.reverse_append]
  exact isPre_self_append _ _

theorem dropEndN_append (b sfx : Str) : dropEndN (b ++ sfx) sfx.length = b := by
  unfold dropEndN
  rw [List.length_append, Nat.add_sub_cancel]
  exact List.take_left _ _

theorem stripSuffixO_append (b sfx : Str) : stripSuffixO (b ++ sfx) sfx = some b := by
  simp [stripSuffixO, endsW_append_self, dropEndN_append]

theorem firstStrip_cons_none {s sfx : Str} {rest : List Str}
    (h : stripSuffixO s sfx = none) : firstStrip s (sfx :: rest) = firstStrip s rest := by
  show (match stripSuffixO s sfx with
        | some base => some base
        | none => firstStrip s rest) = firstStrip s rest
  rw [h]

theorem firstStrip_cons_some {s sfx b : Str} {rest : List Str}
    (h : stripSuffixO s sfx = some b) : firstStrip s (sfx :: rest) = some b := by
  show (match stripSuffixO s sfx with
        | some base => some base
        | none => firstStrip s rest) = some b
  rw [h]

theorem endsW_append_ne_low_medium (b : Str) :
    endsW (b ++ strL ("-medium")) (strL ("-low")) = false := by
  unfold endsW
  rw [List.reverse_append]
  rfl

theorem endsW_append_ne_low_high (b : Str) :
    endsW (b ++ strL ("-high")) (strL ("-low")) = false := by
  unfold endsW
  rw [List.reverse_append]
  rfl

theorem endsW_append_ne_medium_high (b : Str) :
    endsW (b ++ strL ("-high")) (strL ("-medium")) = false := by
  unfold endsW
  rw [List.reverse_append]
  rfl

theorem endsW_append_ne_low_minimal (b : Str) :
    endsW (b ++ strL ("-minimal")) (strL ("-low")) = false := by
  unfold endsW
  rw [List.reverse_append]
  rfl

theorem endsW_append_ne_medium_minimal (b : Str) :
    endsW (b ++ strL ("-minimal")) (strL ("-medium")) = false := by
  unfold endsW
  rw [List.reverse_append]
  rfl

theorem endsW_append_ne_high_minimal (b : Str) :
    endsW (b ++ strL ("-minimal")) (strL ("-high")) = false := by
  unfold endsW
  rw [List.reverse_append]
  rfl

theorem stripEffort_allowed_strips (b c : Str)
    (hc : toLowerStr c = strL ("google") ∨ toLowerStr c = strL ("openai") ∨
      toLowerStr c = strL ("anthropic")) :
    stripEffortSuffixForProvider (b ++ strL ("-low")) (some c) = some b ∧
    stripEffortSuffixForProvider (b ++ strL ("-medium")) (some c) = some b ∧
    stripEffortSuffixForProvider (b ++ strL ("-high")) (some c) = some b ∧
    stripEffortSuffixForProvider (b ++ strL ("-minimal")) (some c) = some b := by
  refine ⟨?_, ?_, ?_, ?_⟩ <;>
    (show (if toLowerStr c = strL ("google") ∨ toLowerStr c = strL ("openai") ∨
        toLowerStr c = strL ("anthropic") then
      firstStrip _ effortSuffixes else none) = some b) <;>
    rw [if_pos hc] <;>
    unfold effortSuffixes
  · rw [firstStrip_cons_some (stripSuffixO_append b _)]
  · rw [firstStrip_cons_none (by simp [stripSuffixO, endsW_append_ne_low_medium]),
      firstStrip_cons_some (stripSuffixO_append b _)]
  · rw [firstStrip_cons_none (by simp [stripSuffixO, endsW_append_ne_low_high]),
      firstStrip_cons_none (by simp [stripSuffixO, endsW_append_ne_medium_high]),
      firstStrip_cons_some (stripSuffixO_append b _)]
  · rw [firstStrip_cons_none (by simp [stripSuffixO, endsW_append_ne_low_minimal]),
      firstStrip_cons_none (by simp [stripSuffixO, endsW_append_ne_medium_minimal]),
      firstStrip_cons_none (by simp [stripSuffixO, endsW_append_ne_high_minimal]),
      firstStrip_cons_some (stripSuffixO_append b _)]

theorem stripEffort_not_allowed (slug c : Str)
    (hc : ¬(toLowerStr c = strL ("google") ∨ toLowerStr c = strL ("openai") ∨
      toLowerStr c = strL ("anthropic"))) :
    stripEffortSuffixForProvider slug (some c) = none := by
  show (if toLowerStr c = strL ("google") ∨ toLowerStr c = strL ("openai") ∨
      toLowerStr c = strL ("anthropic") then
    firstStrip slug effortSuffixes else none) = none
  rw [if_neg hc]

theorem tryStrat_goal {ps : List (Str × ModelsDevProvider)} {pred : Str → ModelIdVariants → Bool}
    {tag : MatchType} {r : MatchResult} (pwn : Bool) (slugs : NormalizedSlugs)
    (h : tryStrat ps pred tag = some r)
    (h1 : tag ≠ MatchType.NormalizedProvider) (h2 : tag ≠ MatchType.EffortLevel) :
    InSnapshot ps r ∧ (r.matchType = MatchType.NormalizedProvider → pwn = true) ∧
    (r.matchType = MatchType.EffortLevel → slugs.strippedEffort ≠ none) := by
  obtain ⟨htag, hins⟩ := tryStrat_cases h
  exact ⟨hins, fun he => absurd (htag.symm.trans he) h1,
    fun he => absurd (htag.symm.trans he) h2⟩

theorem tryStrat_goal_effort {ps : List (Str × ModelsDevProvider)}
    {pred : Str → ModelIdVariants → Bool} {r : MatchResult} (pwn : Bool)
    {slugs : NormalizedSlugs} {base : Str} (hb : slugs.strippedEffort = some base)
    (h : tryStrat ps pred MatchType.EffortLevel = some r) :
    InSnapshot ps r ∧ (r.matchType = MatchType.NormalizedProvider → pwn = true) ∧
    (r.matchType = MatchType.EffortLevel → slugs.strippedEffort ≠ none) := by
  obtain ⟨htag, hins⟩ := tryStrat_cases h
  refine ⟨hins, fun he => absurd (htag.symm.trans he) (by decide), fun _ => ?_⟩
  rw [hb]
  exact Option.some_ne_none base

theorem strategy1_goal {ps : List (Str × ModelsDevProvider)} {ap slug : Str}
    {pwn : Bool} {r : MatchResult} (slugs : NormalizedSlugs)
    (h : strategy1 ps ap slug pwn = some r) :
    InSnapshot ps r ∧ (r.matchType = MatchType.NormalizedProvider → pwn = true) ∧
    (r.matchType = MatchType.EffortLevel → slugs.strippedEffort ≠ none) := by
  obtain ⟨htag, hins⟩ := strategy1_cases h
  refine ⟨hins, fun he => ?_, fun he => ?_⟩
  · cases hpwn : pwn with
    | true => rfl
    | false =>
      rw [hpwn, if_neg (by simp)] at htag
      exact absurd (htag.symm.trans he) (by decide)
  · cases hpwn : pwn with
    | true =>
      rw [hpwn, if_pos rfl] at htag
      exact absurd (htag.symm.trans he) (by decide)
    | false =>
      rw [hpwn, if_neg (by simp)] at htag
      exact absurd (htag.symm.trans he) (by decide)

theorem findMatchCore_cases {ps : List (Str × ModelsDevProvider)} {ap slug : Str}
    {pwn : Bool} {slugs : NormalizedSlugs} {r : MatchResult}
    (h : findMatchCore ps ap slug pwn slugs = some r) :
    InSnapshot ps r ∧ (r.matchType = MatchType.NormalizedProvider → pwn = true) ∧
    (r.matchType = MatchType.EffortLevel → slugs.strippedEffort ≠ none) := by
  unfold findMatchCore at h
  rcases orO_eq_some h with hA | ⟨-, hR1⟩
  · exact strategy1_goal slugs hA
  rcases orO_eq_some hR1 with hB | ⟨-, hR2⟩
  · exact tryStrat_goal pwn slugs hB (by decide) (by decide)
  rcases orO_eq_some hR2 with hC | ⟨-, hR3⟩
  · obtain ⟨base, hb, hC'⟩ := bind_eq_someO hC
    exact tryStrat_goal pwn slugs hC' (by decide) (by decide)
  rcases orO_eq_some hR3 with hD | ⟨-, hR4⟩
  · exact tryStrat_goal pwn slugs hD (by decide) (by decide)
  rcases orO_eq_some hR4 with hE | ⟨-, hR5⟩
  · obtain ⟨n, hn, hE'⟩ := bind_eq_someO hE
    exact tryStrat_goal pwn slugs hE' (by decide) (by decide)
  rcases orO_eq_some hR5 with hF | ⟨-, hR6⟩
  · exact tryStrat_goal pwn slugs hF (by decide) (by decide)
  rcases orO_eq_some hR6 with hG | ⟨-, hR7⟩
  · exact tryStrat_goal pwn slugs hG (by decide) (by decide)
  rcases orO_eq_some hR7 with hH | ⟨-, hR8⟩
  · obtain ⟨base, hb, hH'⟩ := bind_eq_someO hH
    rcases orO_eq_some hH' with hHa | ⟨-, hH2⟩
    · exact tryStrat_goal pwn slugs hHa (by decide) (by decide)
    rcases orO_eq_some hH2 with hHb | ⟨-, hH3⟩
    · obtain ⟨n, hn, hHb'⟩ := bind_eq_someO hHb
      exact tryStrat_goal pwn slugs hHb' (by decide) (by decide)
    rcases orO_eq_some hH3 with hHc | ⟨-, hHd⟩
    · exact tryStrat_goal pwn slugs hHc (by decide) (by decide)
    · exact tryStrat_goal pwn slugs hHd (by decide) (by decide)
  rcases orO_eq_some hR8 with hI | ⟨-, hR9⟩
  · obtain ⟨exp, hexp, hI'⟩ := bind_eq_someO hI
    rcases orO_eq_some hI' with hIa | ⟨-, hI2⟩
    · exact tryStrat_goal pwn slugs hIa (by decide) (by decide)
    rcases orO_eq_some hI2 with hIb | ⟨-, hIc⟩
    · obtain ⟨n, hn, hIb'⟩ := bind_eq_someO hIb
      exact tryStrat_goal pwn slugs hIb' (by decide) (by decide)
    · exact tryStrat_goal pwn slugs hIc (by decide) (by decide)
  rcases orO_eq_some hR9 with hJ | ⟨-, hK⟩
  · obtain ⟨it, hit, hJ'⟩ := bind_eq_someO hJ
    exact tryStrat_goal pwn slugs hJ' (by decide) (by decide)
  · obtain ⟨base, hb, hK'⟩ := bind_eq_someO hK
    rcases orO_eq_some hK' with hKa | ⟨-, hK2⟩
    · exact tryStrat_goal_effort pwn hb hKa
    rcases orO_eq_some hK2 with hKb | ⟨-, hKc⟩
    · obtain ⟨n, hn, hKb'⟩ := bind_eq_someO hKb
      exact tryStrat_goal_effort pwn hb hKb'
    · exact tryStrat_goal_effort pwn hb hKc

theorem findMatch_empty (creator : Option Str) (slug : Str) :
    findMatch creator slug [] = none := by
  unfold findMatch findMatchCore
  have hts : ∀ (pred : Str → ModelIdVariants → Bool) (tag : MatchType),
      tryStrat [] pred tag = none := fun _ _ => rfl
  have hs1 : strategy1 [] (aaProviderOf creator) (toLowerStr slug) (pwnOf creator) = none := rfl
  rw [hs1]
  simp only [hts, orO, bindNoneFun]

/-- Claim C4: on an empty Provider-B snapshot `find_match` returns `none` for
every namespace option and slug, and the (spec-modelled) merge combiner
consequently emits one row per Provider-A record, each with `matched = false`. -/
theorem c4_graceful_degradation_empty_snapshot :
    (∀ (creator : Option Str) (slug : Str), findMatch creator slug [] = none) ∧
    (∀ records : List ProviderARecord,
      (mergeModels records []).length = records.length ∧
      ∀ row ∈ mergeModels records [], row.matched = false) := by
  refine ⟨findMatch_empty, fun records => ⟨by simp [mergeModels], fun row hrow => ?_⟩⟩
  obtain ⟨rec, hmem, heq⟩ := List.mem_map.mp hrow
  rw [← heq]
  show (match findMatch rec.creatorSlug rec.slug [] with
        | some r => ({ aaRecord := rec, capability := some r.model, matched := true } : MergedRow)
        | none => { aaRecord := rec, capability := none, matched := false }).matched = false
  rw [findMatch_empty]

/-- Claim C4 witness: the empty-snapshot behaviour evaluated on a concrete
record list. -/
theorem c4_graceful_degradation_empty_snapshot_witness :
    (mergeModels [⟨7, strL ("GPT-4o"), strL ("gpt-4o"), some (strL ("openai"))⟩] []).length = 1 ∧
    ∀ row ∈ mergeModels [⟨7, strL ("GPT-4o"), strL ("gpt-4o"), some (strL ("openai"))⟩] [],
      row.matched = false :=
  c4_graceful_degradation_empty_snapshot.2 _

/-- Claim C10: every `MatchResult` returned by `find_match` references a model
actually present in the snapshot: its `model` is a value of the `models` map of
some provider of the snapshot and its `provider_id` is that provider's `id`. -/
theorem c10_match_provenance (creator : Option Str) (slug : Str)
    (ps : List (Str × ModelsDevProvider)) (r : MatchResult)
    (h : findMatch creator slug ps = some r) : InSnapshot ps r := by
  unfold findMatch at h
  exact (findMatchCore_cases h).1

/-- Claim C10 witness: provenance instantiated on a concrete snapshot. -/
theorem c10_match_provenance_witness :
    findMatch (some (strL ("openai"))) (strL ("gpt-4o")) psGpt4o =
      some ⟨strL ("openai"), mkModel (strL ("gpt-4o")), MatchType.Exact⟩ ∧
    InSnapshot psGpt4o ⟨strL ("openai"), mkModel (strL ("gpt-4o")), MatchType.Exact⟩ :=
  ⟨by decide,
    c10_match_provenance (some (strL ("openai"))) (strL ("gpt-4o")) psGpt4o
      ⟨strL ("openai"), mkModel (strL ("gpt-4o")), MatchType.Exact⟩ (by decide)⟩

/-- Claim C9: with no creator namespace, `find_match` never returns a result
tagged `NormalizedProvider` or `EffortLevel`, while the other strategies still
apply (here an exact match across namespaces is found without a namespace). -/
theorem c9_absent_namespace_tags :
    (∀ (slug : Str) (ps : List (Str × ModelsDevProvider)) (r : MatchResult),
      findMatch none slug ps = some r →
      r.matchType ≠ MatchType.NormalizedProvider ∧ r.matchType ≠ MatchType.EffortLevel) ∧
    findMatch none (strL ("gpt-4o")) psGpt4o =
      some ⟨strL ("openai"), mkModel (strL ("gpt-4o")), MatchType.Exact⟩ := by
  constructor
  · intro slug ps r h
    unfold findMatch at h
    have hc := findMatchCore_cases h
    constructor
    · intro he
      exact absurd (hc.2.1 he) (by decide)
    · intro he
      exact absurd rfl (hc.2.2 he)
  · decide

/-- Claim C9 witness: the tag exclusions instantiated at the concrete
namespace-free match of the second conjunct. -/
theorem c9_absent_namespace_tags_witness :
    (⟨strL ("openai"), mkModel (strL ("gpt-4o")), MatchType.Exact⟩ : MatchResult).matchType ≠
      MatchType.NormalizedProvider ∧
    (⟨strL ("openai"), mkModel (strL ("gpt-4o")), MatchType.Exact⟩ : MatchResult).matchType ≠
      MatchType.EffortLevel :=
  c9_absent_namespace_tags.1 (strL ("gpt-4o")) psGpt4o
    ⟨strL ("openai"), mkModel (strL ("gpt-4o")), MatchType.Exact⟩ c9_absent_namespace_tags.2

/-- Claim C2: the effort-suffix transform strips `-low`/`-medium`/`-high`/
`-minimal` exactly for creators lowercasing to `google`, `openai` or
`anthropic`, and returns `none` for every other namespace and for an absent
namespace; consequently `find_match` on `mistral-medium`/`mistral` never
yields an EffortLevel match while `gpt-5-medium`/`openai` against
`openai/gpt-5` does. -/
theorem c2_effort_suffix_namespace_gating :
    (∀ b c : Str,
      (toLowerStr c = strL ("google") ∨ toLowerStr c = strL ("openai") ∨
        toLowerStr c = strL ("anthropic")) →
      stripEffortSuffixForProvider (b ++ strL ("-low")) (some c) = some b ∧
      stripEffortSuffixForProvider (b ++ strL ("-medium")) (some c) = some b ∧
      stripEffortSuffixForProvider (b ++ strL ("-high")) (some c) = some b ∧
      stripEffortSuffixForProvider (b ++ strL ("-minimal")) (some c) = some b) ∧
    (∀ slug c : Str,
      ¬(toLowerStr c = strL ("google") ∨ toLowerStr c = strL ("openai") ∨
        toLowerStr c = strL ("anthropic")) →
      stripEffortSuffixForProvider slug (some c) = none) ∧
    (∀ slug : Str, stripEffortSuffixForProvider slug none = none) ∧
    (∀ (ps : List (Str × ModelsDevProvider)) (r : MatchResult),
      findMatch (some (strL ("mistral"))) (strL ("mistral-medium")) ps = some r →
      r.matchType ≠ MatchType.EffortLevel) ∧
    findMatch (some (strL ("openai"))) (strL ("gpt-5-medium")) psGpt5 =
      some ⟨strL ("openai"), mkModel (strL ("gpt-5")), MatchType.EffortLevel⟩ := by
  refine ⟨stripEffort_allowed_strips, stripEffort_not_allowed, fun _ => rfl, ?_, by decide⟩
  intro ps r h he
  unfold findMatch at h
  exact absurd (by decide) ((findMatchCore_cases h).2.2 he)

/-- Claim C2 witness: the gating facts instantiated at concrete slugs and
namespaces. -/
theorem c2_effort_suffix_namespace_gating_witness :
    stripEffortSuffixForProvider (strL ("gpt-5") ++ strL ("-medium")) (some (strL ("openai"))) =
      some (strL ("gpt-5")) ∧
    stripEffortSuffixForProvider (strL ("mistral-medium")) (some (strL ("mistral"))) = none :=
  ⟨(c2_effort_suffix_namespace_gating.1 (strL ("gpt-5")) (strL ("openai"))
      (Or.inr (Or.inl (by decide)))).2.1,
   c2_effort_suffix_namespace_gating.2.1 (strL ("mistral-medium")) (strL ("mistral"))
      (by decide)⟩

/-- Claim C1: whenever some candidate's identifier equals the lowercased
Provider-A slug exactly (in any namespace) while another candidate matches
only after version-suffix stripping, `find_match` returns a result tagged
`Exact` or `NormalizedProvider`, never `Fuzzy`: the exact strategies 1 and 2
are decided before the fuzzy strategy 3. -/
theorem c1_priority_determinism (creator : Option Str) (slug : Str)
    (ps : List (Str × ModelsDevProvider))
    (hExact : ∃ k p, (k, p) ∈ ps ∧ ∃ mid m, (mid, m) ∈ p.models ∧
      toLowerStr mid = toLowerStr slug)
    (_hFuzzy : ∃ k p, (k, p) ∈ ps ∧ ∃ mid m, (mid, m) ∈ p.models ∧
      toLowerStr (stripVersionSuffix mid) = toLowerStr slug ∧
      toLowerStr mid ≠ toLowerStr slug) :
    ∃ r, findMatch creator slug ps = some r ∧
      (r.matchType = MatchType.Exact ∨ r.matchType = MatchType.NormalizedProvider) := by
  unfold findMatch findMatchCore
  cases h1 : strategy1 ps (aaProviderOf creator) (toLowerStr slug) (pwnOf creator) with
  | some r =>
    refine ⟨r, rfl, ?_⟩
    obtain ⟨htag, -⟩ := strategy1_cases h1
    cases hp : pwnOf creator with
    | true =>
      right
      rw [hp, if_pos rfl] at htag
      exact htag
    | false =>
      left
      rw [hp, if_neg (by simp)] at htag
      exact htag
  | none =>
    have hsome : (findModelBy (fun _ v => decide (v.originalLower = toLowerStr slug))
        ps).isSome := by
      apply findModelBy_isSome
      obtain ⟨k, p, hkp, mid, m, hm, he⟩ := hExact
      exact ⟨k, p, hkp, mid, m, hm, decide_eq_true he⟩
    obtain ⟨pm, hpm⟩ := Option.isSome_iff_exists.mp hsome
    have h2 : tryStrat ps (fun _ v => decide (v.originalLower = toLowerStr slug))
        MatchType.Exact = some ⟨pm.1, pm.2, MatchType.Exact⟩ := by
      unfold tryStrat
      rw [hpm]
      rfl
    refine ⟨⟨pm.1, pm.2, MatchType.Exact⟩, ?_, Or.inl rfl⟩
    rw [h2]
    rfl

/-- Claim C1 witness: slug `gpt-4o` against a snapshot holding both the exact
candidate `gpt-4o` and the fuzzy-only candidate `gpt-4o-20240806`. -/
theorem c1_priority_determinism_witness :
    ∃ r, findMatch (some (strL ("openai"))) (strL ("gpt-4o")) psExactAndFuzzy = some r ∧
      (r.matchType = MatchType.Exact ∨ r.matchType = MatchType.NormalizedProvider) :=
  c1_priority_determinism (some (strL ("openai"))) (strL ("gpt-4o")) psExactAndFuzzy
    ⟨strL ("openai"),
     mkProv (strL ("openai"))
       [(strL ("gpt-4o"), mkModel (strL ("gpt-4o"))),
        (strL ("gpt-4o-20240806"), mkModel (strL ("gpt-4o-20240806")))],
     by decide, strL ("gpt-4o"), mkModel (strL ("gpt-4o")), by decide, by decide⟩
    ⟨strL ("openai"),
     mkProv (strL ("openai"))
       [(strL ("gpt-4o"), mkModel (strL ("gpt-4o"))),
        (strL ("gpt-4o-20240806"), mkModel (strL ("gpt-4o-20240806")))],
     by decide, strL ("gpt-4o-20240806"), mkModel (strL ("gpt-4o-20240806")),
     by decide, by decide, by decide⟩

/-- Claim C7 counterexample: with the alias-resolved namespace `meta → llama`,
the candidate `llama/llama-3` equals slug `LLAMA-3` up to case, yet the match
is tagged `NormalizedProvider`, not `Exact` as the claim states. -/
theorem c7_case_insensitivity_counterexample :
    toLowerStr (strL ("llama-3")) = toLowerStr (strL ("LLAMA-3")) ∧
    aaProviderOf (some (strL ("meta"))) = strL ("llama") ∧
    mapGet psLlama (strL ("llama")) =
      some (mkProv (strL ("llama")) [(strL ("llama-3"), mkModel (strL ("llama-3")))]) ∧
    findMatch (some (strL ("meta"))) (strL ("LLAMA-3")) psLlama =
      some ⟨strL ("llama"), mkModel (strL ("llama-3")), MatchType.NormalizedProvider⟩ ∧
    MatchType.NormalizedProvider ≠ MatchType.Exact := by
  decide

/-- Claim C7 as amended: when the alias-resolved namespace holds a candidate
equal to the slug up to case, `find_match` reports a match regardless of
casing, tagged `Exact` or `NormalizedProvider`; the tag is `Exact` exactly
when the alias table left the namespace spelling unchanged, and
`NormalizedProvider` exactly when it rewrote it. -/
theorem c7_case_insensitivity_amended (c slugA : Str)
    (ps : List (Str × ModelsDevProvider)) (p : ModelsDevProvider)
    (hp : mapGet ps (normalizeProvider c) = some p)
    (hc : ∃ mid m, (mid, m) ∈ p.models ∧ toLowerStr mid = toLowerStr slugA) :
    ∃ r, findMatch (some c) slugA ps = some r ∧
      (r.matchType = MatchType.Exact ∨ r.matchType = MatchType.NormalizedProvider) ∧
      (toLowerStr c = normalizeProvider c → r.matchType = MatchType.Exact) ∧
      (toLowerStr c ≠ normalizeProvider c →
        r.matchType = MatchType.NormalizedProvider) := by
  unfold findMatch findMatchCore
  obtain ⟨m, hm⟩ := Option.isSome_iff_exists.mp (scanExact_isSome hc)
  have h1 : strategy1 ps (aaProviderOf (some c)) (toLowerStr slugA) (pwnOf (some c)) =
      some ⟨p.id, m,
        if pwnOf (some c) then MatchType.NormalizedProvider else MatchType.Exact⟩ := by
    unfold strategy1
    rw [show aaProviderOf (some c) = normalizeProvider c from rfl, hp]
    show (scanExact (toLowerStr slugA) p.models).map _ = _
    rw [hm]
    rfl
  refine ⟨⟨p.id, m,
      if pwnOf (some c) then MatchType.NormalizedProvider else MatchType.Exact⟩,
    by rw [h1]; rfl, ?_, ?_, ?_⟩
  · cases hpw : pwnOf (some c) with
    | true => right; simp [hpw]
    | false => left; simp [hpw]
  · intro hceq
    have hfalse : pwnOf (some c) = false := by
      simp [pwnOf, hceq]
    simp [hfalse]
  · intro hne
    have htrue : pwnOf (some c) = true := decide_eq_true hne
    simp [htrue]

/-- Claim C7 witness: the amended statement instantiated at slug `GPT-4o`
against candidate `openai/gpt-4o` (namespace unchanged by the alias table)
and at slug `LLAMA-3` with creator `meta` against candidate `llama/llama-3`
(namespace rewritten by the alias table). -/
theorem c7_case_insensitivity_amended_witness :
    (∃ r, findMatch (some (strL ("openai"))) (strL ("GPT-4o")) psGpt4o = some r ∧
      (r.matchType = MatchType.Exact ∨ r.matchType = MatchType.NormalizedProvider) ∧
      (toLowerStr (strL ("openai")) = normalizeProvider (strL ("openai")) →
        r.matchType = MatchType.Exact) ∧
      (toLowerStr (strL ("openai")) ≠ normalizeProvider (strL ("openai")) →
        r.matchType = MatchType.NormalizedProvider)) ∧
    (∃ r, findMatch (some (strL ("meta"))) (strL ("LLAMA-3")) psLlama = some r ∧
      (r.matchType = MatchType.Exact ∨ r.matchType = MatchType.NormalizedProvider) ∧
      (toLowerStr (strL ("meta")) = normalizeProvider (strL ("meta")) →
        r.matchType = MatchType.Exact) ∧
      (toLowerStr (strL ("meta")) ≠ normalizeProvider (strL ("meta")) →
        r.matchType = MatchType.NormalizedProvider)) :=
  ⟨c7_case_insensitivity_amended (strL ("openai")) (strL ("GPT-4o")) psGpt4o
    (mkProv (strL ("openai")) [(strL ("gpt-4o"), mkModel (strL ("gpt-4o")))])
    (by decide)
    ⟨strL ("gpt-4o"), mkModel (strL ("gpt-4o")), by decide, by decide⟩,
   c7_case_insensitivity_amended (strL ("meta")) (strL ("LLAMA-3")) psLlama
    (mkProv (strL ("llama")) [(strL ("llama-3"), mkModel (strL ("llama-3")))])
    (by decide)
    ⟨strL ("llama-3"), mkModel (strL ("llama-3")), by decide, by decide⟩⟩

/-- Claim C5: two snapshots equal as maps but enumerated in different orders
can drive `find_match` to different models (two candidates both satisfy the
fuzzy predicate for slug `m`; the first in iteration order wins). -/
theorem c5_iteration_order_sensitivity :
    snapshotEquiv psOrder1 psOrder2 ∧
    findMatch none (strL ("m")) psOrder1 ≠ findMatch none (strL ("m")) psOrder2 := by
  constructor
  · intro k
    by_cases hk : strL ("p") = k
    · subst hk
      refine Or.inr ⟨provOrder1, provOrder2, by decide, by decide, by decide, by decide, ?_⟩
      intro mk
      by_cases h1 : strL ("m-20240101") = mk
      · subst h1; decide
      · by_cases h2 : strL ("m-20240202") = mk
        · subst h2; decide
        · simp [provOrder1, provOrder2, mkProv, mapGet, h1, h2]
    · left
      constructor <;> simp [psOrder1, psOrder2, mapGet, hk]
  · decide

/-- Claim C6: slug `gemini-2-5-flash-reasoning` with namespace `google`
against `google/gemini-2.5-flash` matches with tag `ReasoningVariant` (the
reasoning suffix is stripped, and the candidate id matches after separator
normalization). -/
theorem c6_reasoning_variant_scenario :
    findMatch (some (strL ("google"))) (strL ("gemini-2-5-flash-reasoning")) psGemini =
      some ⟨strL ("google"), mkModel (strL ("gemini-2.5-flash")), MatchType.ReasoningVariant⟩ := by
  decide

theorem applyOpt_tryAddIt_idem (s : Str) :
    applyOpt tryAddItSuffix (applyOpt tryAddItSuffix s) = applyOpt tryAddItSuffix s := by
  cases h : (isPre (strL ("gemma-")) s && !(endsW s (strL ("-it")))) with
  | false =>
    have h1 : applyOpt tryAddItSuffix s = s := by
      simp [applyOpt, tryAddItSuffix, h]
    rw [h1]
    exact h1
  | true =>
    have h1 : applyOpt tryAddItSuffix s = s ++ strL ("-it") := by
      simp [applyOpt, tryAddItSuffix, h]
    have h2 : tryAddItSuffix (s ++ strL ("-it")) = none := by
      simp [tryAddItSuffix, endsW_append_self]
    rw [h1]
    simp [applyOpt, h2]

/-- Claim C3 counterexample: each of the normalization transforms other than
`try_add_it_suffix` has a concrete input where a second application changes
the result again (`Option`-valued transforms applied with `none` read as
leaving the input unchanged). -/
theorem c3_idempotence_counterexample :
    stripVersionSuffix (stripVersionSuffix (strL ("m-20240101-v1"))) ≠
      stripVersionSuffix (strL ("m-20240101-v1")) ∧
    normalizeVersionSeparators (normalizeVersionSeparators (strL ("1.2.3"))) ≠
      normalizeVersionSeparators (strL ("1.2.3")) ∧
    expandCompressedVersion (expandCompressedVersion (strL ("m-12-34-"))) ≠
      expandCompressedVersion (strL ("m-12-34-")) ∧
    stripProviderPfx (stripProviderPfx (strL ("a/b/c"))) ≠
      stripProviderPfx (strL ("a/b/c")) ∧
    applyOpt stripReasoningSuffix
        (applyOpt stripReasoningSuffix (strL ("a-reasoning-reasoning"))) ≠
      applyOpt stripReasoningSuffix (strL ("a-reasoning-reasoning")) ∧
    applyOpt (fun t => stripEffortSuffixForProvider t (some (strL ("openai"))))
        (applyOpt (fun t => stripEffortSuffixForProvider t (some (strL ("openai"))))
          (strL ("gpt-low-low"))) ≠
      applyOpt (fun t => stripEffortSuffixForProvider t (some (strL ("openai"))))
        (strL ("gpt-low-low")) := by
  decide

/-- Claim C3 as amended: of the listed transforms only `try_add_it_suffix` is
idempotent (for every input); each of the other six transforms fails
idempotence on some input. -/
theorem c3_idempotence_amended :
    (∀ s : Str,
      applyOpt tryAddItSuffix (applyOpt tryAddItSuffix s) = applyOpt tryAddItSuffix s) ∧
    ¬(∀ s : Str, stripVersionSuffix (stripVersionSuffix s) = stripVersionSuffix s) ∧
    ¬(∀ s : Str,
      normalizeVersionSeparators (normalizeVersionSeparators s) = normalizeVersionSeparators s) ∧
    ¬(∀ s : Str,
      expandCompressedVersion (expandCompressedVersion s) = expandCompressedVersion s) ∧
    ¬(∀ s : Str, stripProviderPfx (stripProviderPfx s) = stripProviderPfx s) ∧
    ¬(∀ s : Str,
      applyOpt stripReasoningSuffix (applyOpt stripReasoningSuffix s) =
        applyOpt stripReasoningSuffix s) ∧
    ¬(∀ s : Str,
      applyOpt (fun t => stripEffortSuffixForProvider t (some (strL ("openai"))))
          (applyOpt (fun t => stripEffortSuffixForProvider t (some (strL ("openai")))) s) =
        applyOpt (fun t => stripEffortSuffixForProvider t (some (strL ("openai")))) s) :=
  ⟨applyOpt_tryAddIt_idem,
   fun h => absurd (h (strL ("m-20240101-v1"))) (by decide),
   fun h => absurd (h (strL ("1.2.3"))) (by decide),
   fun h => absurd (h (strL ("m-12-34-"))) (by decide),
   fun h => absurd (h (strL ("a/b/c"))) (by decide),
   fun h => absurd (h (strL ("a-reasoning-reasoning"))) (by decide),
   fun h => absurd (h (strL ("gpt-low-low"))) (by decide)⟩

theorem orB_false_right {x y : Bool} (h : (x || y) = false) : y = false := by
  cases y with
  | false => rfl
  | true =>
    rw [Bool.or_true] at h
    exact absurd h (by decide)

theorem nvsFuel_nil (fuel : Nat) : nvsFuel fuel [] = [] := by
  cases fuel <;> rfl

theorem expandMidFuel_nil (fuel : Nat) : expandMidFuel fuel [] = [] := by
  cases fuel <;> rfl

theorem nvsFuel_noop : ∀ (fuel : Nat) (s : Str), hasSepPattern s = false → nvsFuel fuel s = s := by
  intro fuel s
  induction fuel, s using nvsFuel.induct with
  | case1 s => intro _; rfl
  | case2 n => intro _; rfl
  | case3 fuel a dot b rest2 hc ih =>
    intro h
    exfalso
    have h' : (decide (dot = '.' ∧ a.isDigit ∧ b.isDigit) ||
        hasSepPattern (dot :: b :: rest2)) = false := h
    rw [decide_eq_true hc] at h'
    simp at h'
  | case4 fuel a dot b rest2 hc ih =>
    intro h
    have h' : (decide (dot = '.' ∧ a.isDigit ∧ b.isDigit) ||
        hasSepPattern (dot :: b :: rest2)) = false := h
    show (if dot = '.' ∧ a.isDigit ∧ b.isDigit then a :: '-' :: b :: nvsFuel fuel rest2
          else a :: nvsFuel fuel (dot :: b :: rest2)) = a :: dot :: b :: rest2
    rw [if_neg hc, ih (orB_false_right h')]
  | case5 fuel a rest hne ih =>
    intro h
    cases rest with
    | nil =>
      show a :: nvsFuel fuel [] = [a]
      rw [nvsFuel_nil]
    | cons x rest2 =>
      cases rest2 with
      | nil =>
        have h' : ((match [x] with
            | dot :: b :: _ => decide (dot = '.' ∧ a.isDigit ∧ b.isDigit)
            | _ => false) || hasSepPattern [x]) = false := h
        show a :: nvsFuel fuel [x] = a :: [x]
        rw [ih (orB_false_right h')]
      | cons y rest3 => exact (hne x y rest3 rfl).elim

theorem expandMidFuel_noop :
    ∀ (fuel : Nat) (s : Str), hasMidPattern s = false → expandMidFuel fuel s = s := by
  intro fuel s
  induction fuel, s using expandMidFuel.induct with
  | case1 s => intro _; rfl
  | case2 n => intro _; rfl
  | case3 fuel c a b d rest2 hc ih =>
    intro h
    exfalso
    have h' : (decide (c = '-' ∧ d = '-' ∧ a.isDigit ∧ b.isDigit) ||
        hasMidPattern (a :: b :: d :: rest2)) = false := h
    rw [decide_eq_true hc] at h'
    simp at h'
  | case4 fuel c a b d rest2 hc ih =>
    intro h
    have h' : (decide (c = '-' ∧ d = '-' ∧ a.isDigit ∧ b.isDigit) ||
        hasMidPattern (a :: b :: d :: rest2)) = false := h
    show (if c = '-' ∧ d = '-' ∧ a.isDigit ∧ b.isDigit then
            '-' :: a :: '-' :: b :: '-' :: expandMidFuel fuel rest2
          else c :: expandMidFuel fuel (a :: b :: d :: rest2)) = c :: a :: b :: d :: rest2
    rw [if_neg hc, ih (orB_false_right h')]
  | case5 fuel c rest hne ih =>
    intro h
    cases rest with
    | nil =>
      show c :: expandMidFuel fuel [] = [c]
      rw [expandMidFuel_nil]
    | cons x rest2 =>
      cases rest2 with
      | nil =>
        have h' : ((match [x] with
            | a :: b :: d :: _ => decide (c = '-' ∧ d = '-' ∧ a.isDigit ∧ b.isDigit)
            | _ => false) || hasMidPattern [x]) = false := h
        show c :: expandMidFuel fuel [x] = c :: [x]
        rw [ih (orB_false_right h')]
      | cons y rest3 =>
        cases rest3 with
        | nil =>
          have h' : ((match [x, y] with
              | a :: b :: d :: _ => decide (c = '-' ∧ d = '-' ∧ a.isDigit ∧ b.isDigit)
              | _ => false) || hasMidPattern [x, y]) = false := h
          show c :: expandMidFuel fuel [x, y] = c :: [x, y]
          rw [ih (orB_false_right h')]
        | cons z rest4 => exact (hne x y z rest4 rfl).elim

theorem stripVSufFuel_noop :
    ∀ (fuel : Nat) (s : Str), hasVSuf s = false → stripVSufFuel fuel s = s := by
  intro fuel s
  induction fuel, s using stripVSufFuel.induct with
  | case1 s => intro _; rfl
  | case2 n => intro _; rfl
  | case3 fuel a v rest2 hc =>
    intro h
    exfalso
    have h' : (decide (a = '-' ∧ v = 'v' ∧ vBody rest2) || hasVSuf (v :: rest2)) = false := h
    rw [decide_eq_true hc] at h'
    simp at h'
  | case4 fuel a v rest2 hc ih =>
    intro h
    have h' : (decide (a = '-' ∧ v = 'v' ∧ vBody rest2) || hasVSuf (v :: rest2)) = false := h
    show (if a = '-' ∧ v = 'v' ∧ vBody rest2 then []
          else a :: stripVSufFuel fuel (v :: rest2)) = a :: v :: rest2
    rw [if_neg hc, ih (orB_false_right h')]
  | case5 fuel a rest hne ih =>
    intro h
    cases rest with
    | nil =>
      show stripVSufFuel (fuel + 1) [a] = [a]
      cases fuel <;> rfl
    | cons x rest2 => exact (hne x rest2 rfl).elim

theorem expandEnd_noop {s : Str} (h : hasEndPattern s = false) : expandEnd s = s := by
  unfold expandEnd
  unfold hasEndPattern at h
  split
  · rename_i b a d rest heq
    rw [heq] at h
    exact if_neg (of_decide_eq_false h)
  · rfl

theorem stripDate_noop {s : Str} (h : hasDateSuffix s = false) : stripDate s = s := by
  unfold stripDate
  unfold hasDateSuffix at h
  split
  · rename_i d1 d2 d3 d4 d5 d6 d7 d8 h9 rest heq
    rw [heq] at h
    exact if_neg (of_decide_eq_false h)
  · rfl

theorem stripDashedDate_noop {s : Str} (h : hasDashedDateSuffix s = false) :
    stripDashedDate s = s := by
  unfold stripDashedDate
  unfold hasDashedDateSuffix at h
  split
  · rename_i e2 e1 h3 f2 f1 h6 g4 g3 g2 g1 h11 rest heq
    rw [heq] at h
    exact if_neg (of_decide_eq_false h)
  · rfl

theorem afterSlash_eq_none {s : Str} (h : '/' ∉ s) : afterSlash s = none := by
  induction s with
  | nil => rfl
  | cons c rest ih =>
    rw [show afterSlash (c :: rest) = if c = '/' then some rest else afterSlash rest from rfl,
      if_neg (fun he => h (by rw [← he]; exact List.mem_cons_self c rest))]
    exact ih fun hm => h (List.mem_cons_of_mem _ hm)

/-- Claim C8: the normalization transforms are total functions by
construction (each is a total Lean function mirroring its Rust source, and
the `Option`-valued ones report inapplicability as `none` rather than
failing), and each returns its input unchanged when its pattern does not
apply: concretely for `gemini-2-5-flash`, and in general when the slug has no
`'/'`, no digit-dot-digit occurrence, no compressed-version segment, none of
the three version-suffix patterns, no reasoning suffix, is not an eligible
Gemma name, and carries no effort-level suffix. -/
theorem c8_totality_and_noop :
    normalizeVersionSeparators (strL ("gemini-2-5-flash")) = strL ("gemini-2-5-flash") ∧
    (∀ s : Str, '/' ∉ s → stripProviderPfx s = s) ∧
    (∀ s : Str, hasSepPattern s = false → normalizeVersionSeparators s = s) ∧
    (∀ s : Str, hasMidPattern s = false → hasEndPattern s = false →
      expandCompressedVersion s = s) ∧
    (∀ s : Str, hasDateSuffix s = false → hasDashedDateSuffix s = false →
      hasVSuf s = false → stripVersionSuffix s = s) ∧
    (∀ s : Str, endsW s (strL ("-non-reasoning")) = false →
      endsW s (strL ("-reasoning")) = false → stripReasoningSuffix s = none) ∧
    (∀ s : Str, isPre (strL ("gemma-")) s = false ∨ endsW s (strL ("-it")) = true →
      tryAddItSuffix s = none) ∧
    (∀ (slug : Str) (creator : Option Str), endsW slug (strL ("-low")) = false →
      endsW slug (strL ("-medium")) = false → endsW slug (strL ("-high")) = false →
      endsW slug (strL ("-minimal")) = false →
      stripEffortSuffixForProvider slug creator = none) := by
  refine ⟨by decide, ?_, ?_, ?_, ?_, ?_, ?_, ?_⟩
  · intro s h
    unfold stripProviderPfx
    rw [afterSlash_eq_none h]
    rfl
  · intro s h
    exact nvsFuel_noop s.length s h
  · intro s h1 h2
    show expandEnd (expandMid s) = s
    have hm : expandMid s = s := expandMidFuel_noop s.length s h1
    rw [hm]
    exact expandEnd_noop h2
  · intro s h1 h2 h3
    unfold stripVersionSuffix
    rw [stripDate_noop h1, stripDashedDate_noop h2]
    exact stripVSufFuel_noop s.length s h3
  · intro s h1 h2
    simp [stripReasoningSuffix, stripSuffixO, h1, h2]
  · intro s h
    rcases h with h1 | h2
    · simp [tryAddItSuffix, h1]
    · simp [tryAddItSuffix, h2]
  · intro slug creator h1 h2 h3 h4
    cases creator with
    | none => rfl
    | some c =>
      show (if toLowerStr c = strL ("google") ∨ toLowerStr c = strL ("openai") ∨
          toLowerStr c = strL ("anthropic") then
        firstStrip slug effortSuffixes else none) = none
      by_cases hc : toLowerStr c = strL ("google") ∨ toLowerStr c = strL ("openai") ∨
          toLowerStr c = strL ("anthropic")
      · rw [if_pos hc]
        unfold effortSuffixes
        rw [firstStrip_cons_none (by simp [stripSuffixO, h1]),
          firstStrip_cons_none (by simp [stripSuffixO, h2]),
          firstStrip_cons_none (by simp [stripSuffixO, h3]),
          firstStrip_cons_none (by simp [stripSuffixO, h4])]
        rfl
      · rw [if_neg hc]

/-- Claim C8 witness: the no-op statements instantiated at `gpt-4o`, on which
none of the seven patterns applies. -/
theorem c8_totality_and_noop_witness :
    stripProviderPfx (strL ("gpt-4o")) = strL ("gpt-4o") ∧
    normalizeVersionSeparators (strL ("gpt-4o")) = strL ("gpt-4o") ∧
    expandCompressedVersion (strL ("gpt-4o")) = strL ("gpt-4o") ∧
    stripVersionSuffix (strL ("gpt-4o")) = strL ("gpt-4o") ∧
    stripReasoningSuffix (strL ("gpt-4o")) = none ∧
    tryAddItSuffix (strL ("gpt-4o")) = none ∧
    stripEffortSuffixForProvider (strL ("gpt-4o")) (some (strL ("openai"))) = none :=
  ⟨c8_totality_and_noop.2.1 (strL ("gpt-4o")) (by decide),
   c8_totality_and_noop.2.2.1 (strL ("gpt-4o")) (by decide),
   c8_totality_and_noop.2.2.2.1 (strL ("gpt-4o")) (by decide) (by decide),
   c8_totality_and_noop.2.2.2.2.1 (strL ("gpt-4o")) (by decide) (by decide) (by decide),
   c8_totality_and_noop.2.2.2.2.2.1 (strL ("gpt-4o")) (by decide) (by decide),
   c8_totality_and_noop.2.2.2.2.2.2.1 (strL ("gpt-4o")) (Or.inl (by decide)),
   c8_totality_and_noop.2.2.2.2.2.2.2 (strL ("gpt-4o")) (some (strL ("openai")))
     (by decide) (by decide) (by decide) (by decide)⟩
